import Mathlib

/-!
Verification of the PyLine line editor core against its specification.

Each section embeds the relevant Python source (src/src of the repository)
as executable Lean definitions: Python strings are `String` (operated on
through their character lists so that everything reduces in the kernel),
Python lists are `List`, Python dynamic values that hooks return are the
inductive `PyVal`, and fallible evaluation (a Python exception) is `Option`.
-/

/-! ## Python dynamic values

Hook results are arbitrary Python values.  The editor inspects them with
truthiness tests, `isinstance` checks, dict key lookup, `in` membership and
`==` comparison, all of which are modelled below. -/

inductive PyVal : Type where
  | vNone : PyVal
  | vBool (b : Bool) : PyVal
  | vInt (n : Int) : PyVal
  | vStr (s : String) : PyVal
  | vList (xs : List PyVal) : PyVal
  | vDict (entries : List (String × PyVal)) : PyVal

namespace PyVal

/-- Python truthiness of a value (`if result:`). -/
def truthy : PyVal → Bool
  | .vNone => false
  | .vBool b => b
  | .vInt n => n != 0
  | .vStr s => s != ""
  | .vList xs => !xs.isEmpty
  | .vDict d => !d.isEmpty

/-- Python `==` between two hook-result values.  Structural, with the
numeric identifications `True == 1` and `False == 0` that Python makes;
container comparison is element-wise (dict comparison in Python is
order-insensitive, which is immaterial for the comparisons the editor
performs, all of which are against scalars). -/
def pyEq : PyVal → PyVal → Bool
  | .vNone, .vNone => true
  | .vBool a, .vBool b => a == b
  | .vInt a, .vInt b => a == b
  | .vBool a, .vInt b => (if a then (1 : Int) else 0) == b
  | .vInt a, .vBool b => a == (if b then (1 : Int) else 0)
  | .vStr a, .vStr b => a == b
  | .vList a, .vList b => pyEqList a b
  | .vDict a, .vDict b => pyEqDict a b
  | _, _ => false
where
  pyEqList : List PyVal → List PyVal → Bool
    | [], [] => true
    | a :: as', b :: bs => pyEq a b && pyEqList as' bs
    | _, _ => false
  pyEqDict : List (String × PyVal) → List (String × PyVal) → Bool
    | [], [] => true
    | a :: as', b :: bs => a.1 == b.1 && pyEq a.2 b.2 && pyEqDict as' bs
    | _, _ => false

end PyVal

/-- Lookup of a key in a dict value's entry list (`d.get(k)` /
`d[k]`-when-present); Python dicts have unique keys so first match is the
binding. -/
def dictFind (d : List (String × PyVal)) (k : String) : Option PyVal :=
  (d.find? (fun e => e.1 == k)).map (fun e => e.2)

/-- Characters of a string; Python strings are sequences of code points
and so are Lean strings. -/
def chars (s : String) : List Char := s.toList

/-- Whether the character list p occurs as a prefix of l
(Python str.startswith / list-prefix scan). -/
def startsWithL : List Char → List Char → Bool
  | [], _ => true
  | _ :: _, [] => false
  | p :: ps, c :: cs => p == c && startsWithL ps cs

/-- Whether p occurs as a contiguous substring of l (Python `k in s` for
strings). -/
def containsSubL (p : List Char) : List Char → Bool
  | [] => startsWithL p []
  | c :: cs => startsWithL p (c :: cs) || containsSubL p cs

/-- Python `key in value`: dict key membership, string substring
membership, list element membership (by `==`).  Other operand types raise
TypeError, modelled as `none`. -/
def pyContains (k : String) : PyVal → Option Bool
  | .vDict d => some ((dictFind d k).isSome)
  | .vStr s => some (containsSubL (chars k) (chars s))
  | .vList xs => some (xs.any (fun v => PyVal.pyEq v (.vStr k)))
  | _ => none

/-- Python subscript `value[k]` for a string key: defined for dicts with
the key present; a missing key (KeyError) or a non-dict receiver
(TypeError) is `none`. -/
def pySubscript (v : PyVal) (k : String) : Option PyVal :=
  match v with
  | .vDict d => dictFind d k
  | _ => none

/-! ## String helpers (Python semantics, over character lists) -/

/-- Leading-whitespace run of a line: what the regex `^(\s*)` captures. -/
def leadingWS (s : String) : String :=
  String.mk ((chars s).takeWhile Char.isWhitespace)

/-- Python `s.lstrip()` (no argument): drop leading whitespace. -/
def pyLstrip (s : String) : String :=
  String.mk ((chars s).dropWhile Char.isWhitespace)

/-- Truthiness of `s.strip()`: true iff the line has a non-whitespace
character. -/
def hasContent (s : String) : Bool :=
  (chars s).any (fun c => !c.isWhitespace)

/-- Longest common prefix of two character lists; this is exactly what the
character-by-character shrink loop in `_calculate_common_prefix` computes
for one pair. -/
def lcpL : List Char → List Char → List Char
  | [], _ => []
  | _, [] => []
  | a :: as', b :: bs => if a == b then a :: lcpL as' bs else []

/-- One split step plus the rest: fuel-based left-to-right scan for
non-overlapping occurrences of the (non-empty) separator, exactly Python
`s.split(sep)`.  `fuel` bounds recursion; any fuel at least the length of
the remaining input, as supplied by `splitOnL`, yields the full split. -/
def splitOnLAux (sep : List Char) : Nat → List Char → List Char → List (List Char)
  | 0, rest, acc => [acc.reverse ++ rest]
  | fuel + 1, l, acc =>
    match l with
    | [] => [acc.reverse]
    | c :: cs =>
      if startsWithL sep l then
        acc.reverse :: splitOnLAux sep fuel (l.drop sep.length) []
      else
        splitOnLAux sep fuel cs (c :: acc)

/-- Python `s.split(sep)` for a non-empty separator. -/
def splitOnL (sep l : List Char) : List (List Char) :=
  splitOnLAux sep l.length l []

/-- Fuel-based `s.replace(old, new)` for a non-empty `old`: left-to-right,
non-overlapping. -/
def replaceLAux (pat repl : List Char) : Nat → List Char → List Char
  | 0, rest => rest
  | fuel + 1, l =>
    match l with
    | [] => []
    | c :: cs =>
      if startsWithL pat l then
        repl ++ replaceLAux pat repl fuel (l.drop pat.length)
      else
        c :: replaceLAux pat repl fuel cs

/-- Python `s.replace(old, new)` for non-empty `old`. -/
def pyReplace (s pat repl : String) : String :=
  String.mk (replaceLAux (chars pat) (chars repl) (chars s).length (chars s))

/-- Python-style lexicographic string comparison: code-point order,
shorter-prefix-first.  `strLeB s t` is `s <= t`. -/
def charListLe : List Char → List Char → Bool
  | [], _ => true
  | _ :: _, [] => false
  | a :: as', b :: bs =>
    if a.toNat < b.toNat then true
    else if b.toNat < a.toNat then false
    else charListLe as' bs

def strLeB (s t : String) : Bool := charListLe (chars s) (chars t)

/-- Digit run with PEP-515 single underscores between digits, as accepted
by Python `int(str)` after sign handling; `none` models ValueError. -/
def pyDigitsAux : List Char → Nat → Option Nat
  | [], acc => some acc
  | '_' :: c :: rest, acc =>
    if c.isDigit then pyDigitsAux rest (acc * 10 + (c.toNat - 48)) else none
  | c :: rest, acc =>
    if c.isDigit then pyDigitsAux rest (acc * 10 + (c.toNat - 48)) else none

def pyDigits : List Char → Option Nat
  | [] => none
  | c :: rest => if c.isDigit then pyDigitsAux rest (c.toNat - 48) else none

/-- Python `int(s)`: strip surrounding whitespace, optional sign, decimal
digits (with grouping underscores); anything else raises ValueError
(`none`). -/
def pyInt (s : String) : Option Int :=
  let l := ((chars s).dropWhile Char.isWhitespace).reverse
  let l := (l.dropWhile Char.isWhitespace).reverse
  match l with
  | '-' :: rest => (pyDigits rest).map (fun n => -(n : Int))
  | '+' :: rest => (pyDigits rest).map (fun n => (n : Int))
  | _ => (pyDigits l).map (fun n => (n : Int))

/-! ## Edit commands (src/src/edit_commands.py)

The buffer a command mutates is `buffer_manager.lines`, a list of
strings. -/

/-- The text buffer: the `lines` list of BufferManager. -/
abbrev Buffer := List String

/-- Python `list.insert(i, x)` for a non-negative index: insert before
position `i`, clamping to the end when `i` exceeds the length. -/
def pyListInsert {α : Type} : Nat → α → List α → List α
  | _, x, [] => [x]
  | 0, x, l => x :: l
  | n + 1, x, a :: l => a :: pyListInsert n x l

/-- The EditCommand variants of edit_commands.py that the claimed inverse
law ranges over: single-line edit/insert/delete and the two multi-line
paste commands. -/
inductive EditCommand : Type where
  | lineEdit (line_num : Nat) (old_text new_text : String)
  | insertLine (line_num : Nat) (text : String)
  | deleteLine (line_num : Nat) (text : String)
  | multiPasteInsert (at_line : Nat) (lines : List String)
  | multiPasteOverwrite (changes : List (Nat × String × String))
  deriving DecidableEq

/-- The loop of MultiPasteInsertCommand.undo: delete `k` times at
`at_line`, each deletion guarded by `if at_line < len(lines)`. -/
def delTimes : Nat → Nat → Buffer → Buffer
  | 0, _, b => b
  | k + 1, at_line, b =>
    delTimes k at_line (if at_line < b.length then b.eraseIdx at_line else b)

namespace EditCommand

/-- `execute(buffer_manager)` of each command, transcribed clause by
clause from edit_commands.py. -/
def execute : EditCommand → Buffer → Buffer
  | .lineEdit n _ new, b => if n < b.length then b.set n new else b
  | .insertLine n t, b => pyListInsert n t b
  | .deleteLine n _, b => if n < b.length then b.eraseIdx n else b
  | .multiPasteInsert a ls, b =>
      -- for line in reversed(self.lines): buffer.lines.insert(self.at_line, line)
      ls.reverse.foldl (fun acc l => pyListInsert a l acc) b
  | .multiPasteOverwrite chs, b =>
      chs.foldl (fun acc c => if c.1 < acc.length then acc.set c.1 c.2.2 else acc) b

/-- `undo(buffer_manager)` of each command, transcribed clause by clause
from edit_commands.py. -/
def undo : EditCommand → Buffer → Buffer
  | .lineEdit n old _, b => if n < b.length then b.set n old else b
  | .insertLine n _, b => if n < b.length then b.eraseIdx n else b
  | .deleteLine n t, b => pyListInsert n t b
  | .multiPasteInsert a ls, b => delTimes ls.length a b
  | .multiPasteOverwrite chs, b =>
      chs.foldl (fun acc c => if c.1 < acc.length then acc.set c.1 c.2.1 else acc) b

end EditCommand

/-! The operations that construct and apply those commands.  Each
constructor mirrors one construction site: TextBuffer.edit_line builds
LineEditCommand(current, old_text, new_text) with old_text the buffer's
current line; TextBuffer.insert_line builds InsertLineCommand with the
inserted text; TextBuffer.delete_current_line builds
DeleteLineCommand(current, deleted_text) with deleted_text the popped
line; PasteBuffer.paste_into builds MultiPasteInsertCommand(at, lines);
PasteBuffer.paste_over builds MultiPasteOverwriteCommand from
(target, old, new) tuples over consecutive in-range targets. -/
inductive EditOp : Type where
  | edit (i : Nat) (new : String)
  | insert (i : Nat) (t : String)
  | delete (i : Nat)
  | pasteInsert (at_line : Nat) (ls : List String)
  | pasteOver (at_line : Nat) (ls : List String)

/-- The changes list paste_over builds: for each source line in order,
target at_line + i, recording the target's old text; stop at buffer end.
The new text re-indents to each target's own leading whitespace. -/
def buildChanges (b : Buffer) : Nat → List String → List (Nat × String × String)
  | _, [] => []
  | t, l :: ls =>
    if t ≥ b.length then []
    else (t, b.getD t "", leadingWS (b.getD t "") ++ pyLstrip l) :: buildChanges b (t + 1) ls

/-- The command an operation constructs against the buffer it is applied
to. -/
def mkCommand (b : Buffer) : EditOp → EditCommand
  | .edit i new => .lineEdit i (b.getD i "") new
  | .insert i t => .insertLine i t
  | .delete i => .deleteLine i (b.getD i "")
  | .pasteInsert a ls => .multiPasteInsert a ls
  | .pasteOver a ls => .multiPasteOverwrite (buildChanges b a ls)

/-- In-range side condition of the claim, per operation: edited and
deleted indices point at an existing line, insertion points are at most
the length. -/
def validOp (b : Buffer) : EditOp → Bool
  | .edit i _ => i < b.length
  | .insert i _ => i ≤ b.length
  | .delete i => i < b.length
  | .pasteInsert a _ => a ≤ b.length
  | .pasteOver _ _ => true

/-- Apply one operation to the buffer through its command's execute. -/
def stepOp (b : Buffer) (op : EditOp) : Buffer :=
  (mkCommand b op).execute b

/-- A whole sequence of operations is valid when each is in range for the
buffer it actually sees. -/
def validOps : Buffer → List EditOp → Bool
  | _, [] => true
  | b, op :: ops => validOp b op && validOps (stepOp b op) ops

/-- Apply a sequence of operations in order. -/
def applyOps : Buffer → List EditOp → Buffer
  | b, [] => b
  | b, op :: ops => applyOps (stepOp b op) ops

/-- The commands the sequence pushed, in order of application. -/
def cmdsOf : Buffer → List EditOp → List EditCommand
  | _, [] => []
  | b, op :: ops => mkCommand b op :: cmdsOf (stepOp b op) ops

/-- Undo a list of commands in reverse order of application, one undo per
command. -/
def undoAll (cs : List EditCommand) (b : Buffer) : Buffer :=
  cs.reverse.foldl (fun acc c => c.undo acc) b

/-! ## Hook dispatch (src/src/hook_manager.py)

Hooks are external programs; a dispatch over a directory of hooks is
modelled as a function of the ordered list of values those hooks return
(an exception inside a hook is caught by the dispatcher and behaves as a
missing/None result). -/

/-- isinstance(result, dict) and result.get("handled_output") == 1. -/
def dictHandledOne : PyVal → Bool
  | .vDict d => PyVal.pyEq ((dictFind d "handled_output").getD .vNone) (.vInt 1)
  | _ => false

/-- isinstance(result, dict) and result.get("handled_output") == 0. -/
def dictHandledZero : PyVal → Bool
  | .vDict d => PyVal.pyEq ((dictFind d "handled_output").getD .vNone) (.vInt 0)
  | _ => false

/-- isinstance(result, str) and result.strip(). -/
def strNonblank : PyVal → Bool
  | .vStr s => hasContent s
  | _ => false

/-- HookManager.execute_hooks, the first-match dispatch, as a function of
the hook results in discovery order.  Python returns None when no hook
handles; that is the value vNone here. -/
def execute_hooks : List PyVal → PyVal
  | [] => .vNone
  | r :: rs =>
    match r with
    | .vNone => execute_hooks rs
    | _ =>
      if dictHandledOne r then r
      else if strNonblank r then r
      else if dictHandledZero r then execute_hooks rs
      else r

/-- HookManager.execute_all_hooks as a function of the hook results in
discovery order: collect every non-None result. -/
def execute_all_hooks (rs : List PyVal) : List PyVal :=
  rs.filter (fun r => !PyVal.pyEq r .vNone)

/-- Modelled from the spec (C4's stopping rule, for comparison with the
code): a result is "handled" when it is a non-empty string, or a dict
whose handled_output equals 1, or any non-None result that is not a dict
whose handled_output equals 0. -/
def specHandled : PyVal → Bool
  | .vNone => false
  | r =>
    (match r with | .vStr s => s != "" | _ => false)
    || dictHandledOne r
    || !dictHandledZero r

/-! ## BufferManager (src/src/buffer_manager.py) -/

/-- The state BufferManager.insert_line / delete_line read and write: the
line list and the dirty flag. -/
structure BufState : Type where
  lines : List String
  dirty : Bool
  deriving DecidableEq

namespace BufferManager

/-- BufferManager.insert_line, as a function of the pre-insert hook chain
result (the value execute_pre_insert returned, vNone when no hook
handled).  Returns the new state and the value `return`ed to the caller;
`none` models an uncaught exception (TypeError subscripting a non-dict,
KeyError).  A hook rewrite whose "text" value is not a string would be
inserted verbatim by Python; the model keeps the line list string-typed
and leaves that case out (`none`), it is reachable only under a
non-string rewrite. -/
def insert_line (st : BufState) (index : Nat) (text : String)
    (pre_insert_result : PyVal) : Option (BufState × PyVal) :=
  -- text_to_insert = text
  -- if pre_insert_result and "text" in pre_insert_result:
  --     text_to_insert = pre_insert_result["text"]
  let textToInsert : Option PyVal :=
    if pre_insert_result.truthy then
      match pyContains "text" pre_insert_result with
      | none => none
      | some true => pySubscript pre_insert_result "text"
      | some false => some (.vStr text)
    else some (.vStr text)
  match textToInsert with
  | none => none
  | some tti =>
    -- if pre_insert_result and "cancel" in pre_insert_result: return text_to_insert
    let cancel : Option Bool :=
      if pre_insert_result.truthy then pyContains "cancel" pre_insert_result
      else some false
    match cancel with
    | none => none
    | some true => some (st, tti)
    | some false =>
      match tti with
      | .vStr t =>
        -- self.lines.insert(index, text_to_insert); self.dirty = True
        some ({ lines := pyListInsert index t st.lines, dirty := true }, tti)
      | _ => none

/-- BufferManager.delete_line, as a function of the pre-delete hook chain
result.  Returns the new state and the returned string; `none` models an
uncaught exception in the `in` test. -/
def delete_line (st : BufState) (index : Int)
    (pre_delete_result : PyVal) : Option (BufState × String) :=
  if ¬ (0 ≤ index ∧ index < st.lines.length) then some (st, "")
  else
    let cancel : Option Bool :=
      if pre_delete_result.truthy then pyContains "cancel" pre_delete_result
      else some false
    match cancel with
    | none => none
    | some true => some (st, "")
    | some false =>
      let deleted := st.lines.getD index.toNat ""
      some ({ lines := st.lines.eraseIdx index.toNat, dirty := true }, deleted)

end BufferManager

/-! ## NavigationManager (src/src/navigation_manager.py)

Python integers are signed, so the three fields are Int; every operation
takes the buffer's line count and the list of values the pre_navigation
session hooks returned.  execute_session_handlers is execute_all_hooks
over the session_handlers category, so the pre-hook value the code tests
is a list; its truthiness is non-emptiness and `"cancel" in result` is
list membership.  post_navigation hooks have no effect on this state and
are omitted. -/

structure NavState : Type where
  current_line : Int
  display_start : Int
  display_lines : Int
  deriving DecidableEq

namespace NavigationManager

/-- The cancellation test `if pre_nav_result and "cancel" in pre_nav_result`
applied to the list execute_session_handlers returns. -/
def navCancelled (results : List PyVal) : Bool :=
  !results.isEmpty && results.any (fun v => PyVal.pyEq v (.vStr "cancel"))

/-- NavigationManager._adjust_viewport. -/
def _adjust_viewport (s : NavState) (line_count : Int) : NavState :=
  if line_count = 0 then
    { s with display_start := 0, current_line := 0 }
  else
    let cl := max 0 (min s.current_line (line_count - 1))
    let ds :=
      if cl < s.display_start then cl
      else if cl ≥ s.display_start + s.display_lines then cl - s.display_lines + 1
      else s.display_start
    let maxDs := max 0 (line_count - s.display_lines)
    let ds := if ds > maxDs then maxDs else ds
    let ds := max 0 ds
    { s with current_line := cl, display_start := ds }

/-- NavigationManager.navigate. -/
def navigate (s : NavState) (direction : String) (line_count : Int)
    (hookResults : List PyVal) : NavState × Bool :=
  if line_count = 0 then (s, false)
  else
    let preNav := execute_all_hooks hookResults
    if navCancelled preNav then (s, false)
    else
      let s' :=
        if direction = "up" ∧ s.current_line > 0 then
          { s with current_line := s.current_line - 1 }
        else if direction = "down" ∧ s.current_line < line_count - 1 then
          { s with current_line := s.current_line + 1 }
        else s
      (_adjust_viewport s' line_count, true)

/-- NavigationManager.jump_to_line. -/
def jump_to_line (s : NavState) (line_number line_count : Int)
    (hookResults : List PyVal) : NavState × Bool :=
  if line_count = 0 then (s, false)
  else if navCancelled (execute_all_hooks hookResults) then (s, false)
  else
    let s' := { s with current_line := max 0 (min line_number (line_count - 1)) }
    (_adjust_viewport s' line_count, true)

/-- NavigationManager.jump_to_beginning. -/
def jump_to_beginning (s : NavState) (line_count : Int)
    (hookResults : List PyVal) : NavState × Bool :=
  if line_count = 0 then (s, false)
  else if navCancelled (execute_all_hooks hookResults) then (s, false)
  else ({ s with current_line := 0, display_start := 0 }, true)

/-- NavigationManager.jump_to_end. -/
def jump_to_end (s : NavState) (line_count : Int)
    (hookResults : List PyVal) : NavState × Bool :=
  if line_count = 0 then (s, false)
  else if navCancelled (execute_all_hooks hookResults) then (s, false)
  else
    let s' :=
      if line_count > 0 then
        { s with current_line := line_count - 1,
                 display_start := max 0 (line_count - s.display_lines) }
      else s
    (s', true)

/-- NavigationManager.page_up. -/
def page_up (s : NavState) (line_count : Int)
    (hookResults : List PyVal) : NavState × Bool :=
  if line_count = 0 then (s, false)
  else if navCancelled (execute_all_hooks hookResults) then (s, false)
  else
    let s' := { s with display_start := max 0 (s.display_start - s.display_lines),
                       current_line := max 0 (s.current_line - s.display_lines) }
    (_adjust_viewport s' line_count, true)

/-- NavigationManager.page_down. -/
def page_down (s : NavState) (line_count : Int)
    (hookResults : List PyVal) : NavState × Bool :=
  if line_count = 0 then (s, false)
  else if navCancelled (execute_all_hooks hookResults) then (s, false)
  else
    let newStart := min (line_count - s.display_lines) (s.display_start + s.display_lines)
    let s' := { s with display_start := max 0 newStart,
                       current_line := min (line_count - 1) (s.current_line + s.display_lines) }
    (_adjust_viewport s' line_count, true)

/-- NavigationManager.set_current_line. -/
def set_current_line (s : NavState) (line_number line_count : Int) : NavState :=
  if line_count = 0 then { s with current_line := 0, display_start := 0 }
  else
    _adjust_viewport
      { s with current_line := max 0 (min line_number (line_count - 1)) } line_count

end NavigationManager

/-- The navigation operations the viewport-invariant claim ranges over. -/
inductive NavOp : Type where
  | navigate (direction : String)
  | jumpToLine (n : Int)
  | jumpToBeginning
  | jumpToEnd
  | pageUp
  | pageDown

/-- Apply one navigation operation. -/
def applyNavOp (op : NavOp) (s : NavState) (line_count : Int)
    (hookResults : List PyVal) : NavState × Bool :=
  match op with
  | .navigate dir => NavigationManager.navigate s dir line_count hookResults
  | .jumpToLine n => NavigationManager.jump_to_line s n line_count hookResults
  | .jumpToBeginning => NavigationManager.jump_to_beginning s line_count hookResults
  | .jumpToEnd => NavigationManager.jump_to_end s line_count hookResults
  | .pageUp => NavigationManager.page_up s line_count hookResults
  | .pageDown => NavigationManager.page_down s line_count hookResults

/-- The viewport invariant of the spec: display_start is non-negative and
the current line lies inside the viewport. -/
def navInv (s : NavState) : Prop :=
  0 ≤ s.display_start ∧ s.display_start ≤ s.current_line ∧
    s.current_line < s.display_start + s.display_lines

/-! ## UndoManager (src/src/undo_manager.py) and
TextBuffer.delete_current_line (src/src/text_buffer.py) -/

namespace UndoManager

/-- push_command on a bounded deque pair: append (a full deque of
max_history drops its oldest entry) and clear the redo stack. -/
def push_command (max_history : Nat) (undo_stack redo_stack : List EditCommand)
    (c : EditCommand) : List EditCommand × List EditCommand :=
  ((if undo_stack.length = max_history then undo_stack.drop 1 else undo_stack) ++ [c], [])

/-- undo: pop the undo stack onto the redo stack and hand back the
command. -/
def undo (undo_stack redo_stack : List EditCommand) :
    Option EditCommand × List EditCommand × List EditCommand :=
  match undo_stack.reverse with
  | [] => (none, undo_stack, redo_stack)
  | c :: rest => (some c, rest.reverse, redo_stack ++ [c])

end UndoManager

/-- The TextBuffer state delete_current_line touches: the buffer-manager
state, the navigation state, and the undo manager's stacks. -/
structure TBState : Type where
  buf : BufState
  nav : NavState
  undo_stack : List EditCommand
  redo_stack : List EditCommand
  deriving DecidableEq

namespace TextBuffer

/-- TextBuffer.delete_current_line, as a function of the pre-delete hook
chain result given to BufferManager.delete_line.  Display refresh has no
state effect and is omitted. -/
def delete_current_line (st : TBState) (pre_delete_result : PyVal) :
    Option (TBState × Bool) :=
  let current_line := st.nav.current_line
  let line_count_before : Int := st.buf.lines.length
  if line_count_before = 0 ∨ current_line ≥ line_count_before then some (st, false)
  else
    match BufferManager.delete_line st.buf current_line pre_delete_result with
    | none => none
    | some (bst, deleted) =>
      if deleted ≠ "" then
        -- push DeleteLineCommand(current_line, deleted_text), adjust navigation
        let cmd := EditCommand.deleteLine current_line.toNat deleted
        let (us, rs) := UndoManager.push_command 120 st.undo_stack st.redo_stack cmd
        let line_count_after : Int := bst.lines.length
        let nav :=
          if current_line = line_count_before - 1 then
            if line_count_after > 0 then
              let n := NavigationManager.set_current_line st.nav
                (line_count_after - 1) line_count_after
              { n with display_start := max 0 (line_count_after - n.display_lines) }
            else
              { st.nav with current_line := 0, display_start := 0 }
          else
            NavigationManager.set_current_line st.nav current_line line_count_after
        some ({ buf := bst, nav := nav, undo_stack := us, redo_stack := rs }, true)
      else
        some ({ st with buf := bst }, false)

end TextBuffer

/-! ## Hook discovery and ordering (src/src/hook_manager.py)

A hook file is known to the sort by its filename (pathlib's .name); stem,
suffix, id and priority are all derived from it.  Enabled state combines
config and runtime information, abstracted as a predicate on hook ids. -/

structure HookFile : Type where
  name : String
  deriving DecidableEq

/-- Index of the last '.' in a name, if any. -/
def lastDotIdx : List Char → Option Nat
  | [] => none
  | c :: rest =>
    match lastDotIdx rest with
    | some i => some (i + 1)
    | none => if c == '.' then some 0 else none

/-- pathlib Path.suffix of a file name: the part from the last dot on,
unless that dot is the first or last character. -/
def pathSuffix (name : String) : String :=
  let l := chars name
  match lastDotIdx l with
  | some i => if 0 < i ∧ i < l.length - 1 then String.mk (l.drop i) else ""
  | none => ""

/-- pathlib Path.stem of a file name: the name with pathSuffix removed. -/
def pathStem (name : String) : String :=
  let l := chars name
  match lastDotIdx l with
  | some i => if 0 < i ∧ i < l.length - 1 then String.mk (l.take i) else name
  | none => name

/-- The supported hook file extensions. -/
def hookSuffixes : List String := [".py", ".js", ".pl", ".rb", ".sh", ".lua", ".php"]

/-- Python s.lstrip("_"): drop every leading underscore. -/
def lstripUnderscores (s : String) : String :=
  String.mk ((chars s).dropWhile (fun c => c == '_'))

/-- Join parts with a separator (Python sep.join). -/
def joinWith (sep : List Char) : List (List Char) → List Char
  | [] => []
  | [p] => p
  | p :: ps => p ++ sep ++ joinWith sep ps

namespace HookManager

/-- HookManager._get_hook_priority: strip the leading underscores from the
stem; when the name contains a double underscore, try to parse the part
after the last one as an int; otherwise (or on ValueError) priority is
50. -/
def _get_hook_priority (f : HookFile) : Int :=
  let name := lstripUnderscores (pathStem f.name)
  let parts := splitOnL (chars "__") (chars name)
  if parts.length ≥ 2 then
    match pyInt (String.mk (parts.getLastD [])) with
    | some n => n
    | none => 50
  else 50

/-- HookManager.get_hook_id for a file directly in the hooks directory:
remove every ".py" occurrence, strip leading underscores, and strip a
trailing "__<int>" priority suffix when present. -/
def get_hook_id (f : HookFile) : String :=
  let hookId := lstripUnderscores (pyReplace f.name ".py" "")
  let parts := splitOnL (chars "__") (chars hookId)
  if parts.length ≥ 2 then
    match pyInt (String.mk (parts.getLastD [])) with
    | some _ => String.mk (joinWith (chars "__") parts.dropLast)
    | none => hookId
  else hookId

/-- The sort key order of _get_sorted_hooks: Python sorts ascending by
(-priority, filename), i.e. descending priority with lexicographic
filename tie-break. -/
def hookLeB (f g : HookFile) : Bool :=
  decide (_get_hook_priority g < _get_hook_priority f)
    || (_get_hook_priority f == _get_hook_priority g && strLeB f.name g.name)

def hookLe (f g : HookFile) : Prop := hookLeB f g = true

instance : DecidableRel hookLe := fun f g => decEq (hookLeB f g) true

/-- HookManager._get_sorted_hooks: keep supported, not
underscore-disabled, enabled files of the directory, sorted by descending
priority with lexicographic tie-break.  `is_hook_enabled` is the
config/runtime enabled test, a function of the hook id. -/
def _get_sorted_hooks (is_hook_enabled : String → Bool)
    (files : List HookFile) : List HookFile :=
  let hooks := files.filter (fun f =>
    hookSuffixes.contains (pathSuffix f.name)
      && !startsWithL (chars "_") (chars f.name)
      && is_hook_enabled (get_hook_id f))
  List.insertionSort hookLe hooks

end HookManager

/-! ## PasteBuffer (src/src/paste_buffer.py) -/

/-- The PasteBuffer state set_text establishes: the line buffer, the
per-line leading-whitespace list, and the memoized common indentation
prefix. -/
structure PasteBufferState : Type where
  buffer : List String
  original_indents : List String
  commonPfx : String
  deriving DecidableEq

namespace PasteBuffer

/-- The candidate filter inside _calculate_common_prefix, verbatim:
an indent is kept when it is non-empty or when any line of the buffer has
content. -/
def candidateIndents (buffer : List String) (original_indents : List String) :
    List String :=
  original_indents.filter (fun ind => ind != "" || buffer.any hasContent)

/-- The shrink step of the loop in _calculate_common_prefix: keep the
running prefix when the next indent starts with it, otherwise shrink to
the character-wise common prefix.  (The early break once the prefix is
empty does not change the result: the empty prefix is a fixed point.) -/
def shrinkStep (pfx ind : String) : String :=
  if startsWithL (chars pfx) (chars ind) then pfx
  else String.mk (lcpL (chars pfx) (chars ind))

/-- PasteBuffer._calculate_common_prefix. -/
def calculateCommonPfx (buffer : List String) (original_indents : List String) :
    String :=
  if buffer.isEmpty then ""
  else
    match candidateIndents buffer original_indents with
    | [] => ""
    | c :: cs => cs.foldl shrinkStep c

/-- PasteBuffer._analyze_indentation followed by the prefix computation:
the indents list is the leading-whitespace run of every line. -/
def analyze (buffer : List String) : PasteBufferState :=
  let indents := buffer.map leadingWS
  { buffer := buffer, original_indents := indents,
    commonPfx := calculateCommonPfx buffer indents }

/-- PasteBuffer.set_text: blank text yields the one-empty-line buffer;
otherwise normalize line endings and split on newline. -/
def set_text (text : String) : PasteBufferState :=
  if !hasContent text then analyze [""]
  else
    let lines := splitOnL (chars "\n")
      (chars (pyReplace (pyReplace text "\r\n" "\n") "\r" "\n"))
    analyze (lines.map String.mk)

/-- PasteBuffer._get_context_indent. -/
def _get_context_indent (lines : List String) (at_line : Nat) : String :=
  if at_line < lines.length then leadingWS (lines.getD at_line "")
  else if 0 < at_line ∧ at_line - 1 < lines.length then
    leadingWS (lines.getD (at_line - 1) "")
  else ""

/-- PasteBuffer._adjust_line_indent. -/
def _adjust_line_indent (commonPfx line target_indent : String) : String :=
  if commonPfx = "" then target_indent ++ pyLstrip line
  else
    let original_indent := leadingWS line
    if startsWithL (chars commonPfx) (chars original_indent) then
      target_indent ++ String.mk ((chars original_indent).drop (chars commonPfx).length)
        ++ pyLstrip line
    else target_indent ++ pyLstrip line

/-- The adjusted line list paste_into builds (adjust_indent=True) before
wrapping it in a MultiPasteInsertCommand. -/
def paste_into_lines (pb : PasteBufferState) (target : List String)
    (at_line : Nat) : List String :=
  pb.buffer.map (fun l =>
    _adjust_line_indent pb.commonPfx l (_get_context_indent target at_line))

end PasteBuffer

/-- Modelled from the spec (C7, for comparison with the code): the common
indentation prefix is the longest whitespace string that is a prefix of
the leading whitespace of every non-blank line. -/
def specCommonPfx (buffer : List String) : String :=
  match (buffer.filter hasContent).map (fun l => chars (leadingWS l)) with
  | [] => ""
  | i :: is' => String.mk (is'.foldl lcpL i)

/-- Modelled from the spec (C6, for comparison with the code): strip the
line's leading whitespace and re-prefix with the context indent plus the
original leading whitespace with the common prefix removed. -/
def specAdjustLine (commonPfx target_indent line : String) : String :=
  target_indent ++ String.mk ((chars (leadingWS line)).drop (chars commonPfx).length)
    ++ pyLstrip line

/-! ## Helper lemmas: list surgery used by the command inverse law -/

theorem pyListInsert_zero {α : Type} (x : α) (l : List α) :
    pyListInsert 0 x l = x :: l := by
  cases l <;> rfl

theorem length_pyListInsert {α : Type} :
    ∀ (n : Nat) (x : α) (l : List α), (pyListInsert n x l).length = l.length + 1
  | _, _, [] => by simp [pyListInsert]
  | 0, x, _ :: _ => rfl
  | n + 1, x, a :: l => by
    simp [pyListInsert, length_pyListInsert n x l]

theorem eraseIdx_pyListInsert {α : Type} :
    ∀ (n : Nat) (x : α) (l : List α), n ≤ l.length →
      (pyListInsert n x l).eraseIdx n = l
  | 0, x, l, _ => by simp [pyListInsert_zero]
  | n + 1, x, [], h => by simp at h
  | n + 1, x, a :: l, h => by
    simp only [pyListInsert, List.eraseIdx_cons_succ, List.cons.injEq, true_and]
    exact eraseIdx_pyListInsert n x l (by simpa using h)

theorem pyListInsert_getD_eraseIdx {α : Type} :
    ∀ (n : Nat) (d : α) (l : List α), n < l.length →
      pyListInsert n (l.getD n d) (l.eraseIdx n) = l
  | 0, d, a :: l, _ => by simp [pyListInsert_zero]
  | n + 1, d, a :: l, h => by
    have ih := pyListInsert_getD_eraseIdx n d l (by simpa using h)
    simpa [pyListInsert] using ih

theorem set_getD_self {α : Type} :
    ∀ (l : List α) (n : Nat) (d : α), n < l.length → l.set n (l.getD n d) = l
  | [], n, d, h => by simp at h
  | a :: l, 0, d, _ => by simp
  | a :: l, n + 1, d, h => by
    simp only [List.getD_cons_succ, List.set_cons_succ, List.cons.injEq, true_and]
    exact set_getD_self l n d (by simpa using h)

theorem pyListInsert_append {α : Type} :
    ∀ (xs : List α) (y : α) (zs : List α),
      pyListInsert xs.length y (xs ++ zs) = xs ++ y :: zs
  | [], y, zs => by simp [pyListInsert_zero]
  | x :: xs, y, zs => by
    simp only [List.length_cons, List.cons_append, pyListInsert]
    simp [pyListInsert_append xs y zs]

theorem eraseIdx_append_len {α : Type} :
    ∀ (xs : List α) (y : α) (zs : List α),
      (xs ++ y :: zs).eraseIdx xs.length = xs ++ zs
  | [], y, zs => by simp
  | x :: xs, y, zs => by
    simp [eraseIdx_append_len xs y zs]

theorem mpi_execute_eq (a : Nat) :
    ∀ (ls : List String) (b : Buffer), a ≤ b.length →
      ls.reverse.foldl (fun acc l => pyListInsert a l acc) b
        = b.take a ++ ls ++ b.drop a
  | [], b, _ => by simp
  | l :: ls, b, h => by
    have ih := mpi_execute_eq a ls b h
    have htake : (b.take a).length = a := by
      simp [List.length_take]; omega
    have key : pyListInsert a l (b.take a ++ (ls ++ b.drop a))
        = b.take a ++ l :: (ls ++ b.drop a) := by
      have hp := pyListInsert_append (b.take a) l (ls ++ b.drop a)
      rwa [htake] at hp
    calc (l :: ls).reverse.foldl (fun acc x => pyListInsert a x acc) b
        = pyListInsert a l (ls.reverse.foldl (fun acc x => pyListInsert a x acc) b) := by
          simp [List.foldl_append]
      _ = pyListInsert a l (b.take a ++ (ls ++ b.drop a)) := by rw [ih]; simp
      _ = b.take a ++ l :: (ls ++ b.drop a) := key
      _ = b.take a ++ (l :: ls) ++ b.drop a := by simp

theorem delTimes_append (a : Nat) :
    ∀ (ys : List String) (xs zs : List String), xs.length = a →
      delTimes ys.length a (xs ++ (ys ++ zs)) = xs ++ zs
  | [], xs, zs, _ => by simp [delTimes]
  | y :: ys, xs, zs, hx => by
    have hlt : a < (xs ++ (y :: (ys ++ zs))).length := by
      simp [← hx]
    have herase : (xs ++ (y :: (ys ++ zs))).eraseIdx a = xs ++ (ys ++ zs) := by
      have he := eraseIdx_append_len xs y (ys ++ zs)
      rw [hx] at he
      exact he
    have hstep : delTimes (y :: ys).length a (xs ++ ((y :: ys) ++ zs))
        = delTimes ys.length a (xs ++ (ys ++ zs)) := by
      simp only [List.length_cons, delTimes, List.cons_append]
      rw [if_pos hlt, herase]
    rw [hstep, delTimes_append a ys xs zs hx]

/-- Undoing a multi-paste insert at an in-range index removes exactly the
inserted block. -/
theorem mpi_inverse (a : Nat) (ls : List String) (b : Buffer) (h : a ≤ b.length) :
    delTimes ls.length a
      (ls.reverse.foldl (fun acc l => pyListInsert a l acc) b) = b := by
  rw [mpi_execute_eq a ls b h, List.append_assoc]
  have htake : (b.take a).length = a := by simp [List.length_take]; omega
  have hd := delTimes_append a ls (b.take a) (b.drop a) htake
  rw [hd]
  exact List.take_append_drop a b

theorem overwrite_foldl_length (f : Nat × String × String → String) :
    ∀ (chs : List (Nat × String × String)) (b : Buffer),
      (chs.foldl (fun acc c => if c.1 < acc.length then acc.set c.1 (f c) else acc)
        b).length = b.length
  | [], _ => rfl
  | c :: cs, b => by
    simp only [List.foldl_cons]
    rw [overwrite_foldl_length f cs]
    split <;> simp

theorem overwrite_foldl_set_comm (f : Nat × String × String → String)
    (m : Nat) (x : String) :
    ∀ (chs : List (Nat × String × String)) (b : Buffer),
      (∀ c ∈ chs, c.1 ≠ m) →
      chs.foldl (fun acc c => if c.1 < acc.length then acc.set c.1 (f c) else acc)
          (b.set m x)
        = (chs.foldl
            (fun acc c => if c.1 < acc.length then acc.set c.1 (f c) else acc) b).set m x
  | [], _, _ => rfl
  | c :: cs, b, h => by
    simp only [List.foldl_cons, List.length_set]
    have hne : c.1 ≠ m := h c (by simp)
    have htail : ∀ d ∈ cs, d.1 ≠ m := fun d hd => h d (by simp [hd])
    by_cases hc : c.1 < b.length
    · rw [if_pos hc, if_pos hc, List.set_comm _ _ _ (Ne.symm hne),
        overwrite_foldl_set_comm f m x cs (b.set c.1 (f c)) htail]
    · rw [if_neg hc, if_neg hc, overwrite_foldl_set_comm f m x cs b htail]

/-- Overwriting a list of in-range, duplicate-free changes and then
writing back the recorded old values is the identity. -/
theorem overwrite_inverse :
    ∀ (chs : List (Nat × String × String)) (b : Buffer),
      (∀ c ∈ chs, c.1 < b.length ∧ b.getD c.1 "" = c.2.1) →
      chs.Pairwise (fun c d => c.1 ≠ d.1) →
      chs.foldl (fun acc c => if c.1 < acc.length then acc.set c.1 c.2.1 else acc)
        (chs.foldl (fun acc c => if c.1 < acc.length then acc.set c.1 c.2.2 else acc) b)
        = b
  | [], b, _, _ => rfl
  | c :: cs, b, h, hp => by
    obtain ⟨hlt, hold⟩ := h c (by simp)
    have htail : ∀ d ∈ cs, d.1 < b.length ∧ b.getD d.1 "" = d.2.1 :=
      fun d hd => h d (by simp [hd])
    have hne : ∀ d ∈ cs, d.1 ≠ c.1 :=
      fun d hd => (List.rel_of_pairwise_cons hp hd).symm
    have hlen : ∀ (bb : Buffer),
        ((cs.foldl (fun acc d => if d.1 < acc.length then acc.set d.1 d.2.2 else acc)
          bb).length) = bb.length :=
      fun bb => overwrite_foldl_length (fun d => d.2.2) cs bb
    simp only [List.foldl_cons, if_pos hlt]
    have hguard : c.1 <
        ((cs.foldl (fun acc d => if d.1 < acc.length then acc.set d.1 d.2.2 else acc)
          (b.set c.1 c.2.2)).length) := by
      rw [hlen]; simpa using hlt
    rw [if_pos hguard]
    have hcomm := overwrite_foldl_set_comm (fun d => d.2.2) c.1 c.2.1 cs
      (b.set c.1 c.2.2) hne
    rw [← hcomm, List.set_set]
    have hself : b.set c.1 c.2.1 = b := by
      rw [← hold]
      exact set_getD_self b c.1 "" hlt
    rw [hself]
    exact overwrite_inverse cs b htail (List.Pairwise.of_cons hp)

theorem buildChanges_mem (b : Buffer) :
    ∀ (ls : List String) (t : Nat) (c : Nat × String × String),
      c ∈ buildChanges b t ls →
      t ≤ c.1 ∧ c.1 < b.length ∧ b.getD c.1 "" = c.2.1
  | [], t, c, hc => by simp [buildChanges] at hc
  | l :: ls, t, c, hc => by
    rw [buildChanges] at hc
    by_cases ht : t ≥ b.length
    · rw [if_pos ht] at hc; simp at hc
    · rw [if_neg ht] at hc
      rcases List.mem_cons.mp hc with hc | hc
      · subst hc
        exact ⟨Nat.le_refl t, by omega, rfl⟩
      · obtain ⟨h1, h2, h3⟩ := buildChanges_mem b ls (t + 1) c hc
        exact ⟨by omega, h2, h3⟩

theorem buildChanges_pairwise (b : Buffer) :
    ∀ (ls : List String) (t : Nat),
      (buildChanges b t ls).Pairwise (fun c d => c.1 ≠ d.1)
  | [], t => by simp [buildChanges]
  | l :: ls, t => by
    rw [buildChanges]
    by_cases ht : t ≥ b.length
    · rw [if_pos ht]; simp
    · rw [if_neg ht]
      refine List.Pairwise.cons ?_ (buildChanges_pairwise b ls (t + 1))
      intro d hd
      have := (buildChanges_mem b ls (t + 1) d hd).1
      simp only []
      omega

/-- Each operation's command, executed against the buffer the operation
was constructed from and then undone, restores that buffer. -/
theorem step_inverse (b : Buffer) (op : EditOp) (h : validOp b op = true) :
    (mkCommand b op).undo (stepOp b op) = b := by
  cases op with
  | edit i new =>
    simp only [validOp, decide_eq_true_eq] at h
    simp only [stepOp, mkCommand, EditCommand.execute, EditCommand.undo, if_pos h]
    rw [if_pos (by simpa using h), List.set_set]
    exact set_getD_self b i "" h
  | insert i t =>
    simp only [validOp, decide_eq_true_eq] at h
    simp only [stepOp, mkCommand, EditCommand.execute, EditCommand.undo]
    rw [if_pos (by rw [length_pyListInsert]; omega)]
    exact eraseIdx_pyListInsert i t b h
  | delete i =>
    simp only [validOp, decide_eq_true_eq] at h
    simp only [stepOp, mkCommand, EditCommand.execute, EditCommand.undo, if_pos h]
    exact pyListInsert_getD_eraseIdx i "" b h
  | pasteInsert a ls =>
    simp only [validOp, decide_eq_true_eq] at h
    simp only [stepOp, mkCommand, EditCommand.execute, EditCommand.undo]
    exact mpi_inverse a ls b h
  | pasteOver a ls =>
    simp only [stepOp, mkCommand, EditCommand.execute, EditCommand.undo]
    exact overwrite_inverse (buildChanges b a ls) b
      (fun c hc => ⟨(buildChanges_mem b ls a c hc).2.1,
        (buildChanges_mem b ls a c hc).2.2⟩)
      (buildChanges_pairwise b ls a)

theorem undoAll_cons (c : EditCommand) (cs : List EditCommand) (b : Buffer) :
    undoAll (c :: cs) b = c.undo (undoAll cs b) := by
  simp [undoAll, List.foldl_append]

theorem undoAll_nil (b : Buffer) : undoAll [] b = b := rfl

/-- C1: for every sequence of single-line insert, delete, edit and
multi-line paste operations applied to a buffer through their commands'
execute methods at in-range indices, undoing each pushed command exactly
once in reverse order of application restores the buffer line for line. -/
theorem undo_inverse_law :
    ∀ (ops : List EditOp) (b : Buffer), validOps b ops = true →
      undoAll (cmdsOf b ops) (applyOps b ops) = b
  | [], b, _ => rfl
  | op :: ops, b, h => by
    rw [validOps, Bool.and_eq_true] at h
    rw [cmdsOf, applyOps, undoAll_cons,
      undo_inverse_law ops (stepOp b op) h.2]
    exact step_inverse b op h.1

/-- Witness for C1: a concrete five-operation sequence, one of each
variant, on a two-line buffer. -/
theorem undo_inverse_law_witness :
    validOps ["alpha", "beta"]
        [.edit 0 "gamma", .insert 1 "delta", .delete 0,
         .pasteInsert 1 ["  p", "q"], .pasteOver 0 ["  r", "s", "t"]] = true
      ∧ undoAll
          (cmdsOf ["alpha", "beta"]
            [.edit 0 "gamma", .insert 1 "delta", .delete 0,
             .pasteInsert 1 ["  p", "q"], .pasteOver 0 ["  r", "s", "t"]])
          (applyOps ["alpha", "beta"]
            [.edit 0 "gamma", .insert 1 "delta", .delete 0,
             .pasteInsert 1 ["  p", "q"], .pasteOver 0 ["  r", "s", "t"]])
        = ["alpha", "beta"] :=
  ⟨by decide,
    undo_inverse_law
      [.edit 0 "gamma", .insert 1 "delta", .delete 0,
       .pasteInsert 1 ["  p", "q"], .pasteOver 0 ["  r", "s", "t"]]
      ["alpha", "beta"] (by decide)⟩

/-- C2: whenever the pre-insert hook result is a dict containing the key
"cancel", BufferManager.insert_line returns normally with the buffer state
untouched: same line list (hence same length and content) and same dirty
flag. -/
theorem pre_insert_cancel_leaves_buffer_unchanged
    (st : BufState) (index : Nat) (text : String) (d : List (String × PyVal))
    (hcancel : (dictFind d "cancel").isSome = true) :
    ∃ ret, BufferManager.insert_line st index text (.vDict d) = some (st, ret) := by
  have hd : d ≠ [] := by
    intro hnil
    rw [hnil] at hcancel
    simp [dictFind] at hcancel
  have htruthy : (PyVal.vDict d).truthy = true := by
    simp [PyVal.truthy, List.isEmpty_iff]
    exact hd
  cases hfind : dictFind d "text" with
  | none =>
    exact ⟨.vStr text,
      by simp [BufferManager.insert_line, htruthy, pyContains, hfind, hcancel]⟩
  | some v =>
    exact ⟨v,
      by simp [BufferManager.insert_line, htruthy, pyContains, pySubscript,
        hfind, hcancel]⟩

/-- Witness for C2: a hook result with both a rewrite and a cancel key on
a one-line buffer. -/
theorem pre_insert_cancel_leaves_buffer_unchanged_witness :
    (dictFind [("text", PyVal.vStr "rewritten"), ("cancel", PyVal.vBool true)]
        "cancel").isSome = true
      ∧ ∃ ret, BufferManager.insert_line ⟨["x"], false⟩ 0 "y"
          (.vDict [("text", PyVal.vStr "rewritten"), ("cancel", PyVal.vBool true)])
          = some (⟨["x"], false⟩, ret) :=
  ⟨by decide,
    pre_insert_cancel_leaves_buffer_unchanged ⟨["x"], false⟩ 0 "y"
      [("text", PyVal.vStr "rewritten"), ("cancel", PyVal.vBool true)] (by decide)⟩

/-- C8 (code bug): a cancelled insert does not return a None sentinel; it
returns the text string.  With text "" the cancelled call and the
successful empty-line insert both return the string "", so the caller's
`is not None` test cannot distinguish them. -/
theorem insert_cancel_returns_text_not_none :
    BufferManager.insert_line ⟨["x"], false⟩ 1 "" (.vDict [("cancel", .vBool true)])
        = some (⟨["x"], false⟩, .vStr "")
      ∧ BufferManager.insert_line ⟨["x"], false⟩ 1 "" .vNone
        = some (⟨["x", ""], true⟩, .vStr "") :=
  ⟨rfl, rfl⟩

/-- C10: deleting a current line whose text is empty removes the line from
the buffer (and marks it dirty) but, because delete_line's return value ""
is falsy and indistinguishable from a cancelled deletion, no command is
pushed onto the undo stack — the stacks are exactly as before, so a
subsequent undo replays whatever was on the stack before and does not
restore the deleted line. -/
theorem empty_line_delete_no_undo (st : TBState) (r : PyVal)
    (hcur : 0 ≤ st.nav.current_line)
    (hlt : st.nav.current_line < (st.buf.lines.length : Int))
    (hempty : st.buf.lines.getD st.nav.current_line.toNat "" = "")
    (hnocancel : r.truthy = false ∨ pyContains "cancel" r = some false) :
    TextBuffer.delete_current_line st r
      = some ({ st with
          buf := { lines := st.buf.lines.eraseIdx st.nav.current_line.toNat,
                   dirty := true } }, false) := by
  have hcancel : (if r.truthy then pyContains "cancel" r else some false)
      = some false := by
    rcases hnocancel with h | h
    · rw [h]; simp
    · by_cases ht : r.truthy
      · rw [if_pos ht]; exact h
      · rw [if_neg ht]
  have hdel : BufferManager.delete_line st.buf st.nav.current_line r
      = some ({ lines := st.buf.lines.eraseIdx st.nav.current_line.toNat,
                dirty := true }, "") := by
    have hempty2 : st.buf.lines[st.nav.current_line.toNat]?.getD "" = "" := by
      simpa [List.getD] using hempty
    simp only [BufferManager.delete_line]
    rw [if_neg (by push_neg; exact ⟨hcur, hlt⟩)]
    rw [hcancel]
    simp [hempty2]
  simp only [TextBuffer.delete_current_line]
  rw [if_neg (by push_neg; exact ⟨by omega, by omega⟩)]
  rw [hdel]
  simp

/-- Witness for C10: a two-line buffer whose first (current) line is empty
and an existing command on the undo stack. -/
theorem empty_line_delete_no_undo_witness :
    (0 : Int) ≤ (0 : Int)
      ∧ TextBuffer.delete_current_line
          ⟨⟨["", "b"], false⟩, ⟨0, 0, 52⟩, [.insertLine 0 "z"], []⟩ .vNone
        = some (⟨⟨["b"], true⟩, ⟨0, 0, 52⟩, [.insertLine 0 "z"], []⟩, false) :=
  ⟨le_refl 0,
    empty_line_delete_no_undo
      ⟨⟨["", "b"], false⟩, ⟨0, 0, 52⟩, [.insertLine 0 "z"], []⟩ .vNone
      (by decide) (by decide) (by decide) (Or.inl (by decide))⟩

theorem adjust_viewport_inv (s : NavState) (lc : Int) (hlc : 1 ≤ lc)
    (hdl : 1 ≤ s.display_lines) (hds : 0 ≤ s.display_start) :
    navInv (NavigationManager._adjust_viewport s lc) := by
  simp only [NavigationManager._adjust_viewport]
  rw [if_neg (by omega)]
  simp only [navInv]
  split_ifs <;> constructor <;> (try omega) <;> constructor <;> omega

/-- C5: every navigation operation (navigate up/down, jump_to_line,
jump_to_beginning, jump_to_end, page_up, page_down) on a buffer with at
least one line preserves the viewport invariant
display_start ≤ current_line < display_start + display_lines with
display_start ≥ 0. -/
theorem viewport_invariant (op : NavOp) (s : NavState) (lc : Int)
    (rs : List PyVal) (hlc : 1 ≤ lc) (hinv : navInv s) :
    navInv (applyNavOp op s lc rs).1 := by
  obtain ⟨hds, hcl1, hcl2⟩ := hinv
  have hdl : 1 ≤ s.display_lines := by omega
  cases op with
  | navigate dir =>
    simp only [applyNavOp, NavigationManager.navigate]
    rw [if_neg (by omega)]
    split_ifs with hcanc hup hdown
    · exact ⟨hds, hcl1, hcl2⟩
    · exact adjust_viewport_inv _ lc hlc hdl hds
    · exact adjust_viewport_inv _ lc hlc hdl hds
    · exact adjust_viewport_inv _ lc hlc hdl hds
  | jumpToLine n =>
    simp only [applyNavOp, NavigationManager.jump_to_line]
    rw [if_neg (by omega)]
    split_ifs with hcanc
    · exact ⟨hds, hcl1, hcl2⟩
    · exact adjust_viewport_inv _ lc hlc hdl hds
  | jumpToBeginning =>
    simp only [applyNavOp, NavigationManager.jump_to_beginning]
    rw [if_neg (by omega)]
    split_ifs with hcanc
    · exact ⟨hds, hcl1, hcl2⟩
    · simp only [navInv]
      refine ⟨le_refl 0, le_refl 0, ?_⟩
      simpa using hdl
  | jumpToEnd =>
    simp only [applyNavOp, NavigationManager.jump_to_end]
    rw [if_neg (by omega)]
    split_ifs with hcanc hpos
    · exact ⟨hds, hcl1, hcl2⟩
    · simp only [navInv]
      refine ⟨le_max_left 0 _, ?_, ?_⟩
      · show max 0 (lc - s.display_lines) ≤ lc - 1
        omega
      · show lc - 1 < max 0 (lc - s.display_lines) + s.display_lines
        omega
    · exact ⟨hds, hcl1, hcl2⟩
  | pageUp =>
    simp only [applyNavOp, NavigationManager.page_up]
    rw [if_neg (by omega)]
    split_ifs with hcanc
    · exact ⟨hds, hcl1, hcl2⟩
    · exact adjust_viewport_inv _ lc hlc hdl (le_max_left 0 _)
  | pageDown =>
    simp only [applyNavOp, NavigationManager.page_down]
    rw [if_neg (by omega)]
    split_ifs with hcanc
    · exact ⟨hds, hcl1, hcl2⟩
    · exact adjust_viewport_inv _ lc hlc hdl (le_max_left 0 _)

/-- Witness for C5: a page-down on a 100-line buffer from the initial
viewport. -/
theorem viewport_invariant_witness :
    (1 : Int) ≤ 100 ∧ navInv ⟨0, 0, 52⟩
      ∧ navInv (applyNavOp .pageDown ⟨0, 0, 52⟩ 100 []).1 :=
  ⟨by norm_num, ⟨by norm_num, by norm_num, by norm_num⟩,
    viewport_invariant .pageDown ⟨0, 0, 52⟩ 100 [] (by norm_num)
      ⟨by norm_num, by norm_num, by norm_num⟩⟩

/-- C9 counterexample: the pre_navigation dispatch is not execute_first
with dict-cancel handling.  Concretely, with a single pre_navigation hook
returning the dict with key "cancel", the first-match winner under
execute_hooks would be that dict and it contains the key "cancel", yet
navigate does not abort: current_line moves from 1 to 0. -/
theorem pre_navigation_counterexample :
    execute_hooks [PyVal.vDict [("cancel", PyVal.vBool true)]]
        = PyVal.vDict [("cancel", PyVal.vBool true)]
      ∧ pyContains "cancel" (PyVal.vDict [("cancel", PyVal.vBool true)]) = some true
      ∧ (NavigationManager.navigate ⟨1, 0, 52⟩ "up" 2
          [PyVal.vDict [("cancel", PyVal.vBool true)]]).1.current_line = 0
      ∧ ((1 : Int) ≠ 0) :=
  ⟨rfl, rfl, rfl, by decide⟩

/-- C9 amended: pre_navigation is dispatched through
execute_session_handlers, i.e. execute_all_hooks; when the collected
result list is non-empty and has an element equal (Python ==) to the
string "cancel", navigate aborts with current_line and display_start
unchanged. -/
theorem pre_navigation_cancel_amended (s : NavState) (dir : String)
    (lc : Int) (rs : List PyVal)
    (h : NavigationManager.navCancelled (execute_all_hooks rs) = true) :
    NavigationManager.navigate s dir lc rs = (s, false) := by
  simp only [NavigationManager.navigate]
  split_ifs with h0
  · rfl
  · rfl

/-- Witness for the amended C9: a hook returning the bare string
"cancel" does abort an up-navigation. -/
theorem pre_navigation_cancel_amended_witness :
    NavigationManager.navCancelled
        (execute_all_hooks [PyVal.vStr "cancel"]) = true
      ∧ NavigationManager.navigate ⟨1, 0, 52⟩ "up" 2 [PyVal.vStr "cancel"]
          = (⟨1, 0, 52⟩, false) :=
  ⟨rfl,
    pre_navigation_cancel_amended ⟨1, 0, 52⟩ "up" 2 [PyVal.vStr "cancel"] rfl⟩

/-- C4: execute_hooks returns the first hook result that is a non-empty
string, a dict with handled_output == 1, or any non-None result that is
not a dict with handled_output == 0; a dict with handled_output == 0 makes
the scan continue, and when every result is None or handled_output == 0
the function returns None. -/
theorem execute_hooks_first_handled :
    ∀ rs : List PyVal, execute_hooks rs = ((rs.find? specHandled).getD .vNone)
  | [] => rfl
  | r :: rs => by
    have ih := execute_hooks_first_handled rs
    cases r with
    | vNone => simpa [execute_hooks, List.find?, specHandled] using ih
    | vBool b =>
      simp [execute_hooks, List.find?, specHandled, dictHandledOne,
        dictHandledZero, strNonblank]
    | vInt n =>
      simp [execute_hooks, List.find?, specHandled, dictHandledOne,
        dictHandledZero, strNonblank]
    | vStr s =>
      by_cases h : hasContent s <;>
        simp [execute_hooks, List.find?, specHandled, dictHandledOne,
          dictHandledZero, strNonblank, h]
    | vList xs =>
      simp [execute_hooks, List.find?, specHandled, dictHandledOne,
        dictHandledZero, strNonblank]
    | vDict d =>
      by_cases ho : dictHandledOne (.vDict d)
      · simp [execute_hooks, List.find?, specHandled, ho, strNonblank]
      · by_cases hz : dictHandledZero (.vDict d)
        · have hsh : specHandled (.vDict d) = false := by
            simp [specHandled, ho, hz, strNonblank]
          simp only [execute_hooks]
          rw [if_neg (by simpa using ho), if_neg (by simp [strNonblank]),
            if_pos (by simpa using hz)]
          rw [ih]
          simp [List.find?, hsh]
        · simp [execute_hooks, List.find?, specHandled, ho, hz, strNonblank]

theorem charListLe_total : ∀ a b : List Char,
    charListLe a b = true ∨ charListLe b a = true
  | [], _ => Or.inl rfl
  | _ :: _, [] => Or.inr rfl
  | a :: as', b :: bs => by
    simp only [charListLe]
    by_cases h1 : a.toNat < b.toNat
    · left; simp [h1]
    · by_cases h2 : b.toNat < a.toNat
      · right; simp [h1, h2]
      · simpa [h1, h2] using charListLe_total as' bs

theorem charListLe_trans : ∀ a b c : List Char,
    charListLe a b = true → charListLe b c = true → charListLe a c = true
  | [], _, _, _, _ => rfl
  | _ :: _, [], _, h1, _ => by simp [charListLe] at h1
  | _ :: _, _ :: _, [], _, h2 => by simp [charListLe] at h2
  | a :: as', b :: bs, c :: cs, h1, h2 => by
    simp only [charListLe] at h1 h2 ⊢
    split_ifs at h1 h2 ⊢ <;>
      first
        | rfl
        | omega
        | exact charListLe_trans as' bs cs h1 h2
        | simp_all

theorem hookLe_total (f g : HookFile) : HookManager.hookLe f g ∨ HookManager.hookLe g f := by
  simp only [HookManager.hookLe, HookManager.hookLeB, strLeB, Bool.or_eq_true, decide_eq_true_eq,
    Bool.and_eq_true, beq_iff_eq]
  rcases lt_trichotomy (HookManager._get_hook_priority f)
      (HookManager._get_hook_priority g) with h | h | h
  · exact Or.inr (Or.inl h)
  · rcases charListLe_total (chars f.name) (chars g.name) with hc | hc
    · exact Or.inl (Or.inr ⟨h, hc⟩)
    · exact Or.inr (Or.inr ⟨h.symm, hc⟩)
  · exact Or.inl (Or.inl h)

theorem hookLe_trans (f g h : HookFile) :
    HookManager.hookLe f g → HookManager.hookLe g h → HookManager.hookLe f h := by
  simp only [HookManager.hookLe, HookManager.hookLeB, strLeB, Bool.or_eq_true, decide_eq_true_eq,
    Bool.and_eq_true, beq_iff_eq]
  rintro (h1 | ⟨h1, h1s⟩) (h2 | ⟨h2, h2s⟩)
  · exact Or.inl (by omega)
  · exact Or.inl (by omega)
  · exact Or.inl (by omega)
  · exact Or.inr ⟨by omega, charListLe_trans _ _ _ h1s h2s⟩

/-- C3: hook discovery returns a permutation of the enabled, supported
files of the directory, ordered by descending numeric priority (parsed
from the __NN suffix of the filename, default 50) with ties broken by
ascending lexicographic filename; in particular, files with priorities
[10, 90, 50, 90] come out [90 (lexicographically first of the tie), 90,
50, 10]. -/
theorem hook_discovery_order (enabled : String → Bool) (files : List HookFile) :
    List.Pairwise (fun f g =>
        HookManager._get_hook_priority g < HookManager._get_hook_priority f
          ∨ (HookManager._get_hook_priority f = HookManager._get_hook_priority g
              ∧ strLeB f.name g.name = true))
      (HookManager._get_sorted_hooks enabled files)
    ∧ (HookManager._get_sorted_hooks enabled files).Perm
        (files.filter (fun f =>
          hookSuffixes.contains (pathSuffix f.name)
            && !startsWithL (chars "_") (chars f.name)
            && enabled (HookManager.get_hook_id f)))
    ∧ HookManager._get_sorted_hooks (fun _ => true)
        [⟨"a__10.py"⟩, ⟨"b__90.py"⟩, ⟨"c__50.py"⟩, ⟨"a__90.py"⟩]
      = [⟨"a__90.py"⟩, ⟨"b__90.py"⟩, ⟨"c__50.py"⟩, ⟨"a__10.py"⟩] := by
  haveI : IsTotal HookFile HookManager.hookLe := ⟨hookLe_total⟩
  haveI : IsTrans HookFile HookManager.hookLe := ⟨hookLe_trans⟩
  refine ⟨?_, ?_, ?_⟩
  · have hs := List.sorted_insertionSort HookManager.hookLe (files.filter (fun f =>
      hookSuffixes.contains (pathSuffix f.name)
        && !startsWithL (chars "_") (chars f.name)
        && enabled (HookManager.get_hook_id f)))
    refine List.Pairwise.imp ?_ hs
    intro f g hfg
    simpa [HookManager.hookLe, HookManager.hookLeB, strLeB, Bool.or_eq_true, decide_eq_true_eq,
      Bool.and_eq_true, beq_iff_eq] using hfg
  · exact List.perm_insertionSort HookManager.hookLe _
  · decide

/-- C7 (code bug): for the text with an indented line, a blank line, and
another indented line, set_text computes common prefix "" (the blank
line's empty indent enters the candidate list because the buffer has
content somewhere), while the documented rule — longest whitespace prefix
common to the non-blank lines — gives "  ". -/
theorem common_pfx_blank_line_bug :
    (PasteBuffer.set_text "  a\n\n  b").buffer = ["  a", "", "  b"]
      ∧ (PasteBuffer.set_text "  a\n\n  b").commonPfx = ""
      ∧ specCommonPfx ((PasteBuffer.set_text "  a\n\n  b").buffer) = "  "
      ∧ (PasteBuffer.set_text "  a\n\n  b").commonPfx
          ≠ specCommonPfx ((PasteBuffer.set_text "  a\n\n  b").buffer) := by
  refine ⟨rfl, rfl, rfl, ?_⟩
  decide

/-- C6 counterexample: for the paste block "  a\nb" (computed common
prefix "") pasted before the line "    x" (context indent "    "),
paste_into flattens the indented source line to "    a"; the claimed
transform (context indent plus the original leading whitespace with the
empty common prefix removed) would give "      a". -/
theorem paste_reindent_counterexample :
    (PasteBuffer.set_text "  a\nb").commonPfx = ""
      ∧ PasteBuffer.paste_into_lines (PasteBuffer.set_text "  a\nb") ["    x"] 0
          = ["    a", "    b"]
      ∧ ((PasteBuffer.set_text "  a\nb").buffer).map
            (specAdjustLine (PasteBuffer.set_text "  a\nb").commonPfx
              (PasteBuffer._get_context_indent ["    x"] 0))
          = ["      a", "    b"]
      ∧ PasteBuffer.paste_into_lines (PasteBuffer.set_text "  a\nb") ["    x"] 0
          ≠ ((PasteBuffer.set_text "  a\nb").buffer).map
              (specAdjustLine (PasteBuffer.set_text "  a\nb").commonPfx
                (PasteBuffer._get_context_indent ["    x"] 0)) := by
  refine ⟨rfl, rfl, rfl, ?_⟩
  decide

/-- C6 amended: when the computed common prefix is non-empty (it is, by
construction, a leading-whitespace prefix of every buffer line, the
stated hypothesis), paste_into rewrites each source line to the context
indent plus the line's leading whitespace with the common prefix removed
plus the stripped line — exactly the relative indentation is preserved;
when the common prefix is empty, each line's own indentation is dropped
and the result is the context indent plus the stripped line. -/
theorem paste_reindent_amended (pb : PasteBufferState) (target : List String)
    (at_line : Nat)
    (hpfx : ∀ l ∈ pb.buffer,
      startsWithL (chars pb.commonPfx) (chars (leadingWS l)) = true) :
    (pb.commonPfx ≠ "" →
      PasteBuffer.paste_into_lines pb target at_line
        = pb.buffer.map (specAdjustLine pb.commonPfx
            (PasteBuffer._get_context_indent target at_line)))
    ∧ (pb.commonPfx = "" →
      PasteBuffer.paste_into_lines pb target at_line
        = pb.buffer.map (fun l =>
            PasteBuffer._get_context_indent target at_line ++ pyLstrip l)) := by
  constructor
  · intro hne
    apply List.map_congr_left
    intro l hl
    simp only [PasteBuffer._adjust_line_indent, specAdjustLine, if_neg hne]
    rw [if_pos (hpfx l hl)]
  · intro he
    apply List.map_congr_left
    intro l hl
    simp [PasteBuffer._adjust_line_indent, he]

/-- Witness for the amended C6: the block "  a\n    b" with common prefix
"  " pasted before the line "  t". -/
theorem paste_reindent_amended_witness :
    (∀ l ∈ (PasteBuffer.set_text "  a\n    b").buffer,
        startsWithL (chars (PasteBuffer.set_text "  a\n    b").commonPfx)
          (chars (leadingWS l)) = true)
      ∧ PasteBuffer.paste_into_lines (PasteBuffer.set_text "  a\n    b") ["  t"] 0
          = ((PasteBuffer.set_text "  a\n    b").buffer).map
              (specAdjustLine (PasteBuffer.set_text "  a\n    b").commonPfx
                (PasteBuffer._get_context_indent ["  t"] 0)) :=
  ⟨by decide,
    (paste_reindent_amended (PasteBuffer.set_text "  a\n    b") ["  t"] 0
      (by decide)).1 (by decide)⟩
